import Mathlib

/-!
Verification of the autotimer repository's alignment pipeline against its
natural-language specification.

The Python sources are shallowly embedded:
* `extract_jscript.py` (PageTextCollector): per-page line splitting,
  trimming, consecutive-duplicate suppression with a document-wide
  carry-over, and newline joining.
* `generate_whisper.py` (TranscriptNormalizer's upstream): per-segment
  start adjustment and two-decimal rounding, duration capping and the
  duration break.
* `align_scripts.py` (ReconciliationClient + AlignmentParser, structured
  shape): primary/fallback oracle invocation, markdown-fence stripping,
  JSON-decode failure handling, and per-record event construction.
* The DELIMITED response shape does not occur in the sources; it is
  modelled from the spec where a claim needs it (doc comments on those
  definitions say so).

Numeric values are modelled as rationals (`Rat`): the Python code uses
floats only for seconds-scale timestamps and two-decimal rounding, and
every claim here is robust to the rational idealization.
-/

namespace Autotimer

/-! ## Python string primitives

The Python string operations used by the sources (`split`, `strip`,
`startswith`, `endswith`, `join`) are modelled on the character list of
the string, with plain structural recursion, so that every definition
evaluates inside the kernel on concrete inputs. -/

/-- Python `s.split(sep)` for a one-character separator, on character
lists: `"".split(sep)` is `[""]`, and separators are not kept. -/
def splitOnChar (sep : Char) : List Char → List (List Char)
  | [] => [[]]
  | c :: cs =>
    let r := splitOnChar sep cs
    if c = sep then [] :: r
    else
      match r with
      | [] => [[c]]
      | h :: t => (c :: h) :: t

/-- Python `s.split(sep)` for a one-character separator. -/
def pySplit (sep : Char) (s : String) : List String :=
  (splitOnChar sep s.data).map String.mk

/-- Python `s.split("\n")`, also standing in for `s.splitlines()` (the
sources only ever meet `"\n"`-separated text). -/
def pySplitNL (s : String) : List String :=
  pySplit '\n' s

/-- Python `s.startswith(pre)`. -/
def pyStartsWith (s pre : String) : Bool :=
  pre.data.isPrefixOf s.data

/-- Python `s.endswith(suf)`. -/
def pyEndsWith (s suf : String) : Bool :=
  suf.data.reverse.isPrefixOf s.data.reverse

/-! ## PageTextCollector (`extract_jscript.py`) -/

/-- Python `str.strip()` on the character list: drop whitespace from the
front, then from the back (via reverse). -/
def pyStripChars (cs : List Char) : List Char :=
  ((cs.dropWhile Char.isWhitespace).reverse.dropWhile Char.isWhitespace).reverse

/-- Python `str.strip()`: remove leading and trailing whitespace. -/
def pyStrip (s : String) : String :=
  String.mk (pyStripChars s.data)

/-- The comprehension
`lines = [line.strip() for line in page_raw_text.splitlines() if line.strip()]`
(`extract_jscript.py` line 90): split a page's raw text into trimmed
non-empty lines.  `splitlines` is modelled as splitting on `"\n"`. -/
def pageLines (raw : String) : List String :=
  ((pySplitNL raw).map pyStrip).filter fun l => l != ""

/-- The dedup loop of `extract_jscript.py` lines 92-95: emit a line only
when it differs from the last emitted line; the carry-over is threaded
through (second component). -/
def pageDedup (lastLine : Option String) : List String → List String × Option String
  | [] => ([], lastLine)
  | l :: ls =>
    if some l = lastLine then pageDedup lastLine ls
    else
      let r := pageDedup (some l) ls
      (l :: r.1, r.2)

/-- Python `"\n".join`. -/
def joinNL : List String → String
  | [] => ""
  | [s] => s
  | s :: rest => s ++ "\n" ++ joinNL rest

/-- The page loop of `extract_jscript.py` lines 48-102: for each page,
split/trim/dedup its lines (the carry-over `last_line` is threaded across
pages, never reset), and keep the page's deduplicated line block only when
its joined text is non-empty (`if page_clean_text:`). -/
def collectPages (lastLine : Option String) : List String → List (List String)
  | [] => []
  | p :: ps =>
    let d := pageDedup lastLine (pageLines p)
    if joinNL d.1 = "" then collectPages d.2 ps
    else d.1 :: collectPages d.2 ps

/-- The logical lines of the final reference text: the surviving
deduplicated lines of all pages, in order. -/
def referenceLines (pages : List String) : List String :=
  (collectPages none pages).flatten

/-- `extracted_text = "\n".join(full_text)` (`extract_jscript.py` line
104), where each entry of `full_text` is itself the `"\n".join` of one
page's surviving lines: the PageTextCollector's returned reference text,
as a function of the per-page raw texts. -/
def extract_jscript (pages : List String) : String :=
  joinNL ((collectPages none pages).map joinNL)

/-! ## Whisper transcript generation (`generate_whisper.py`) -/

/-- One word-level timing from faster-whisper. -/
structure WhisperWord where
  start : Rat
  stop : Rat
deriving DecidableEq, Repr

/-- One recognition segment as delivered by faster-whisper. -/
structure WhisperSegment where
  id : Int
  start : Rat
  stop : Rat
  text : String
  words : List WhisperWord
deriving DecidableEq, Repr

/-- One entry of the transcript JSON written by `generate_whisper.py`
(lines 52-57): the values later embedded verbatim into the oracle
prompt by `align_scripts.py`. -/
structure SegmentData where
  id : Int
  start : Rat
  stop : Rat
  text : String
deriving DecidableEq, Repr

/-- Python `round(x)` (banker's rounding, round-half-to-even) on a
rational. -/
def pyRoundHalfEven (x : Rat) : Int :=
  let f := ⌊x⌋
  let r := x - f
  if r < 1 / 2 then f
  else if 1 / 2 < r then f + 1
  else if f % 2 = 0 then f else f + 1

/-- Python `round(x, 2)`: round to two decimal places. -/
def pyRound2 (x : Rat) : Rat :=
  (pyRoundHalfEven (x * 100) : Rat) / 100

/-- The start-adjustment of `generate_whisper.py` lines 34-46: when a
segment has more than one word, replace the raw start by the rounded
`max(words[0].start, words[0].end - avg_duration)` where `avg_duration`
is the rounded mean duration of the words after the first; otherwise the
raw `segment.start` is kept unchanged (and unrounded). -/
def adjustStart (seg : WhisperSegment) : Rat :=
  match seg.words with
  | [] => seg.start
  | w0 :: rest =>
    if rest.isEmpty then seg.start
    else
      let durations := rest.map fun w => w.stop - w.start
      let avg := pyRound2 (durations.sum / (durations.length : Rat))
      pyRound2 (max w0.start (w0.stop - avg))

/-- Lines 48-57 of `generate_whisper.py` for one segment: the end is
rounded to two decimals and capped at the duration limit when one is
set; the start is `adjustStart`. -/
def processSegment (duration : Option Rat) (seg : WhisperSegment) : SegmentData :=
  let e := pyRound2 seg.stop
  let segEnd := match duration with
    | some d => if d < e then d else e
    | none => e
  ⟨seg.id, adjustStart seg, segEnd, seg.text⟩

/-- The segment loop of `generate_whisper.py` lines 30-59: segments are
processed in order; when a duration limit is set, the loop breaks at the
first segment whose raw start reaches the limit (discarding it and all
later segments). -/
def generate_whisper_script (duration : Option Rat) : List WhisperSegment → List SegmentData
  | [] => []
  | seg :: rest =>
    match duration with
    | some d =>
      if d ≤ seg.start then []
      else processSegment duration seg :: generate_whisper_script duration rest
    | none => processSegment duration seg :: generate_whisper_script duration rest

/-- The prompt block built by `align_scripts.py` lines 38-40: for each
transcript entry the id, start, end and text are embedded verbatim
(`T:{seg['start']}-{seg['end']}`), with no further rounding.  Modelled at
value level as the list of embedded tuples. -/
def whisperBlockEntries (data : List SegmentData) : List (Int × Rat × Rat × String) :=
  data.map fun seg => (seg.id, seg.start, seg.stop, seg.text)

/-! ## ReconciliationClient (`align_scripts.py` lines 73-93) -/

/-- The primary model identifier of `align_scripts.py` line 74. -/
def primaryModelId : String := "gemini-2.0-flash-lite-preview-02-05"

/-- The fallback model identifier of `align_scripts.py` line 88. -/
def fallbackModelId : String := "gemini-1.5-flash"

/-- The try/except of `align_scripts.py` lines 76-93: call the oracle
with the primary model; on any invocation error call it once with the
fallback model, outside any handler, so a fallback error propagates.
The oracle is an opaque external function from model identifier to
result; the second component records the models invoked, in order. -/
def generateWithFallback (oracle : String → Except String String) :
    Except String String × List String :=
  match oracle primaryModelId with
  | .ok r => (.ok r, [primaryModelId])
  | .error _ =>
    match oracle fallbackModelId with
    | .ok r => (.ok r, [primaryModelId, fallbackModelId])
    | .error e => (.error e, [primaryModelId, fallbackModelId])

/-! ## AlignmentParser, structured shape (`align_scripts.py` lines 95-126) -/

/-- Python `s.split("\n", 1)[1]`: everything after the first newline, or
an `IndexError` (`none`) when the string contains no newline. -/
def pyAfterFirstNL (s : String) : Option String :=
  match pySplitNL s with
  | [] => none
  | [_] => none
  | _ :: rest => some (joinNL rest)

/-- Python `s.rsplit("\n", 1)[0]`: everything before the last newline,
or the whole string when it contains no newline (the one-element list
still has an index 0). -/
def pyBeforeLastNL (s : String) : String :=
  let parts := pySplitNL s
  if parts.length ≤ 1 then s
  else joinNL parts.dropLast

/-- The markdown fence marker tested by `align_scripts.py` lines 98-100. -/
def fenceMarker : String := "```"

/-- The fence stripping of `align_scripts.py` lines 97-101: when the
response starts with the fence marker, drop its whole first line
(raising — `none` — when there is no newline to split at); when the
remainder ends with the fence marker, drop its whole last line. -/
def stripFences (s : String) : Option String :=
  match (if pyStartsWith s fenceMarker then pyAfterFirstNL s else some s) with
  | none => none
  | some s1 => some (if pyEndsWith s1 fenceMarker then pyBeforeLastNL s1 else s1)

/-- One record of the decoded JSON response, as accessed by
`align_scripts.py` lines 119-123: each field may be absent (`item.get`
default applies); `actor` may additionally be present but null
(`some none`), which the `or ""` coalesces. -/
structure JsonItem where
  startField : Option Rat
  stopField : Option Rat
  textField : Option String
  actorField : Option (Option String)
deriving DecidableEq, Repr

/-- One pysubs2 `SSAEvent` as constructed by `align_scripts.py` line
125: millisecond times, text and actor name. -/
structure SSAEvent where
  startMs : Int
  stopMs : Int
  text : String
  name : String
deriving DecidableEq, Repr

/-- Python `int(q)`: truncation toward zero. -/
def pyInt (q : Rat) : Int :=
  if q < 0 then -⌊-q⌋ else ⌊q⌋

/-- Lines 119-125 of `align_scripts.py` for one record: missing start or
end default to 0 and are scaled to milliseconds, missing text defaults
to the empty string, and `item.get("actor", "") or ""` turns an absent,
null or empty actor into the empty string.  No field is validated and no
record is rejected. -/
def itemToEvent (item : JsonItem) : SSAEvent :=
  let startMs := pyInt ((item.startField.getD 0) * 1000)
  let stopMs := pyInt ((item.stopField.getD 0) * 1000)
  let text := item.textField.getD ""
  let actor := match item.actorField with
    | none => ""
    | some none => ""
    | some (some s) => if s = "" then "" else s
  ⟨startMs, stopMs, text, actor⟩

/-- The event loop of `align_scripts.py` lines 119-126: every decoded
record is appended as one event, in response order. -/
def buildEvents (items : List JsonItem) : List SSAEvent :=
  items.foldl (fun evs item => evs ++ [itemToEvent item]) []

/-- A failure of the structured parsing path of `align_scripts.py`:
either the `IndexError` escaping the fence stripping, or the
`json.JSONDecodeError` path of lines 103-110, which first writes the
(fence-stripped) `json_content` to a debug file — carried here as the
payload of `parseFailure`. -/
inductive AlignFailure where
  | stripFailure : AlignFailure
  | parseFailure : String → AlignFailure
deriving DecidableEq, Repr

/-- The structured parsing path of `align_scripts.py` lines 95-126:
strip fences, decode the JSON (the Python `json.loads` is the opaque
parameter `decode`; `none` models a `JSONDecodeError`), and turn every
record into an event.  On decode failure the fence-stripped text is
preserved (debug file) and the error is re-raised: no events are
produced. -/
def alignParse (decode : String → Option (List JsonItem)) (resp : String) :
    Except AlignFailure (List SSAEvent) :=
  match stripFences resp with
  | none => .error .stripFailure
  | some content =>
    match decode content with
    | none => .error (.parseFailure content)
    | some items => .ok (buildEvents items)

/-! ## AlignmentParser, delimited shape (modelled from the spec)

The repository sources under `src/` contain only the structured (JSON)
response shape; the DELIMITED shape named by the spec as an evolutionary
variant is absent, so it is modelled here from the spec's own words
(§4.4, §8). -/

/-- Modelled from the spec: one AlignedEvent of the spec's data model
(§3) — start and end in seconds, speaker (possibly empty), text.  The
delimited parser, absent from `src/`, produces these. -/
structure AlignedEvent where
  start : Rat
  stop : Rat
  speaker : String
  text : String
deriving DecidableEq, Repr

/-- The numeric value of one decimal digit, or `none`. -/
def digitVal (c : Char) : Option Nat :=
  if c.isDigit then some (c.toNat - '0'.toNat) else none

/-- Parse a non-empty string of decimal digits. -/
def parseDigits (cs : List Char) : Option Nat :=
  match cs with
  | [] => none
  | _ =>
    cs.foldl
      (fun acc c => do
        let n ← acc
        let d ← digitVal c
        pure (n * 10 + d))
      (some 0)

/-- Modelled from the spec: the numeric parsing of the delimited
shape's `start`/`end` fields (§4.4: they "must parse as numeric"),
absent from `src/`.  Accepts a nonnegative decimal literal with an
optional fractional part. -/
def parseDecimal (s : String) : Option Rat :=
  match pySplit '.' s with
  | [i] => (parseDigits i.data).map fun n => (n : Rat)
  | [i, f] => do
    let n ← parseDigits i.data
    let m ← parseDigits f.data
    pure ((n : Rat) + (m : Rat) / ((10 : Rat) ^ f.length))
  | _ => none

/-- Python `";".join`, used to recover a text field that itself contains
the delimiter. -/
def joinSemi : List String → String
  | [] => ""
  | [s] => s
  | s :: rest => s ++ ";" ++ joinSemi rest

/-- Modelled from the spec: parsing one delimited line (§4.4), absent
from `src/`.  Blank lines are skipped; fields are separated by `;` in
the order `[start, end, speaker, text]`; a line with fewer than 4 fields
is skipped; non-numeric start or end skips the line. -/
def parseDelimLine (line : String) : Option AlignedEvent :=
  if pyStrip line = "" then none
  else
    match pySplit ';' line with
    | f0 :: f1 :: f2 :: rest =>
      if rest.isEmpty then none
      else do
        let s ← parseDecimal f0
        let e ← parseDecimal f1
        pure ⟨s, e, f2, joinSemi rest⟩
    | _ => none

/-- Modelled from the spec: the record sequence of a delimited response
before validation — every line that parses into a record, in response
order (§8 "the oracle response's record order"). -/
def delimitedRecords (resp : String) : List AlignedEvent :=
  (pySplitNL resp).filterMap parseDelimLine

/-- Modelled from the spec: the validation common to both shapes (§4.4
"drop records with empty `text`; `end` must exceed `start`"), absent
from `src/`. -/
def validEvent (r : AlignedEvent) : Bool :=
  (r.text != "") && decide (r.start < r.stop)

/-- Modelled from the spec: the full delimited parsing state machine
(§4.4 `SCANNING_LINES → PARSE_FIELDS → VALIDATE → EMIT`), absent from
`src/`: each line is parsed and its record emitted only when it passes
validation, retaining response order. -/
def delimitedParse (resp : String) : List AlignedEvent :=
  (pySplitNL resp).filterMap fun l => (parseDelimLine l).filter validEvent

/-! ## Helper lemmas -/

/-- The event loop is an in-order map over the decoded records. -/
theorem buildEvents_eq_map (items : List JsonItem) :
    buildEvents items = items.map itemToEvent := by
  have h : ∀ acc : List SSAEvent,
      items.foldl (fun evs item => evs ++ [itemToEvent item]) acc
        = acc ++ items.map itemToEvent := by
    induction items with
    | nil => intro acc; simp
    | cons i t ih => intro acc; simp only [List.foldl_cons, List.map_cons, ih,
        List.append_assoc, List.singleton_append]
  simpa using h []

/-- Tightening the per-element filter of a `filterMap` yields a sublist. -/
theorem filterMap_filter_sublist {α β : Type} (f : α → Option β) (p : β → Bool)
    (ls : List α) :
    (ls.filterMap fun a => (f a).filter p).Sublist (ls.filterMap f) := by
  induction ls with
  | nil => simp
  | cons a t ih =>
    cases hf : f a with
    | none => simpa [List.filterMap_cons, hf, Option.filter] using ih
    | some b =>
      by_cases hp : p b
      · simpa [List.filterMap_cons, hf, Option.filter, hp] using ih.cons₂ b
      · simpa [List.filterMap_cons, hf, Option.filter, hp] using ih.cons b

theorem dropWhile_self {α : Type} (p : α → Bool) (l : List α) :
    (l.dropWhile p).dropWhile p = l.dropWhile p := by
  induction l with
  | nil => rfl
  | cons c t ih =>
    by_cases hp : p c
    · simp [List.dropWhile_cons, hp, ih]
    · simp [List.dropWhile_cons, hp]

theorem head?_dropWhile_false {α : Type} (p : α → Bool) (l : List α) :
    ∀ x, (l.dropWhile p).head? = some x → p x = false := by
  induction l with
  | nil => intro x h; cases h
  | cons c t ih =>
    intro x h
    by_cases hp : p c
    · rw [List.dropWhile_cons, if_pos hp] at h
      exact ih x h
    · rw [List.dropWhile_cons, if_neg hp] at h
      cases h
      exact Bool.not_eq_true _ ▸ (by simpa using hp)

theorem dropWhile_eq_self_of_head {α : Type} (p : α → Bool) (l : List α)
    (h : ∀ x, l.head? = some x → p x = false) : l.dropWhile p = l := by
  cases l with
  | nil => rfl
  | cons c t =>
    rw [List.dropWhile_cons, if_neg]
    simp [h c rfl]

theorem getLast?_dropWhile {α : Type} (p : α → Bool) (l : List α)
    (h : l.dropWhile p ≠ []) : (l.dropWhile p).getLast? = l.getLast? := by
  induction l with
  | nil => simp at h
  | cons c t ih =>
    by_cases hp : p c
    · rw [List.dropWhile_cons, if_pos hp] at h ⊢
      rw [ih h]
      have ht : t ≠ [] := by
        intro he; rw [he] at h; exact h rfl
      match t, ht with
      | x :: xs, _ => rw [List.getLast?_cons_cons]
    · rw [List.dropWhile_cons, if_neg hp]

theorem pyStripChars_idem (cs : List Char) :
    pyStripChars (pyStripChars cs) = pyStripChars cs := by
  set w := Char.isWhitespace with hw
  set a := cs.dropWhile w with ha
  set b := a.reverse.dropWhile w with hb
  have hres : pyStripChars cs = b.reverse := rfl
  rw [hres]
  by_cases hbe : b = []
  · rw [hbe]; rfl
  · have hdrop1 : b.reverse.dropWhile w = b.reverse := by
      apply dropWhile_eq_self_of_head
      intro x hx
      rw [List.head?_reverse] at hx
      have hgb : b.getLast? = a.reverse.getLast? := by
        rw [hb]
        exact getLast?_dropWhile w a.reverse (hb ▸ hbe)
      rw [hgb, List.getLast?_reverse] at hx
      exact head?_dropWhile_false w cs x (ha ▸ hx)
    show ((b.reverse.dropWhile w).reverse.dropWhile w).reverse = b.reverse
    rw [hdrop1, List.reverse_reverse, hb, dropWhile_self]

theorem pyStrip_idem (s : String) : pyStrip (pyStrip s) = pyStrip s :=
  congrArg String.mk (pyStripChars_idem s.data)

theorem joinNL_append (xs ys : List String) (hx : xs ≠ []) (hy : ys ≠ []) :
    joinNL (xs ++ ys) = joinNL xs ++ "\n" ++ joinNL ys := by
  induction xs with
  | nil => exact absurd rfl hx
  | cons x t ih =>
    cases t with
    | nil =>
      match ys, hy with
      | y :: ys2, _ => rfl
    | cons x2 t2 =>
      have h1 : joinNL ((x :: x2 :: t2) ++ ys) = x ++ "\n" ++ joinNL ((x2 :: t2) ++ ys) := rfl
      rw [h1, ih (by simp),
        show joinNL (x :: x2 :: t2) = x ++ "\n" ++ joinNL (x2 :: t2) from rfl]
      simp [String.append_assoc]

theorem joinNL_ne_empty (l : List String) (hne : l ≠ [])
    (h : ∀ x ∈ l, x ≠ "") : joinNL l ≠ "" := by
  cases l with
  | nil => exact absurd rfl hne
  | cons x t =>
    cases t with
    | nil => exact h x (List.mem_singleton_self x)
    | cons y t2 =>
      intro he
      have hd := congrArg String.data he
      simp [joinNL, String.data_append] at hd

theorem joinNL_flatten (bs : List (List String)) (h : ∀ b ∈ bs, b ≠ []) :
    joinNL (bs.map joinNL) = joinNL bs.flatten := by
  induction bs with
  | nil => rfl
  | cons b rest ih =>
    cases hr : rest with
    | nil =>
      rw [List.map_cons, List.map_nil, List.flatten_cons, List.flatten_nil, List.append_nil]
      rfl
    | cons r1 r2 =>
      subst hr
      have hbne : b ≠ [] := h b (List.mem_cons_self _ _)
      have hr1ne : r1 ≠ [] := h r1 (List.mem_cons_of_mem b (List.mem_cons_self _ _))
      have hfl : (r1 :: r2).flatten ≠ [] := by
        simp only [List.flatten_cons]
        intro he
        exact hr1ne (List.append_eq_nil.mp he).1
      have hrec : ∀ x ∈ r1 :: r2, x ≠ [] := fun x hx => h x (List.mem_cons_of_mem b hx)
      have h2 : joinNL (List.map joinNL (b :: r1 :: r2))
          = joinNL b ++ "\n" ++ joinNL (List.map joinNL (r1 :: r2)) := by
        rw [List.map_cons,
          show joinNL b :: List.map joinNL (r1 :: r2)
            = [joinNL b] ++ List.map joinNL (r1 :: r2) from rfl,
          joinNL_append [joinNL b] _ (by simp) (by simp)]
        rfl
      rw [h2, ih hrec,
        show (b :: r1 :: r2).flatten = b ++ (r1 :: r2).flatten from rfl,
        joinNL_append b _ hbne hfl]

/-! ## Claim C2 -/

/-- C2: if the primary-model oracle invocation succeeds, exactly one
external oracle call is made; if the primary invocation raises any
error, the fallback model is invoked exactly once (at most two calls
total); and if the fallback invocation also fails, the error propagates
fatally to the caller with no third attempt. -/
theorem fallback_protocol (oracle : String → Except String String) :
    (∀ r, oracle primaryModelId = .ok r →
      generateWithFallback oracle = (.ok r, [primaryModelId]))
    ∧ (∀ e, oracle primaryModelId = .error e →
      (generateWithFallback oracle).2 = [primaryModelId, fallbackModelId])
    ∧ (∀ e₁ e₂, oracle primaryModelId = .error e₁ →
        oracle fallbackModelId = .error e₂ →
      generateWithFallback oracle = (.error e₂, [primaryModelId, fallbackModelId]))
    ∧ (generateWithFallback oracle).2.length ≤ 2 := by
  refine ⟨?_, ?_, ?_, ?_⟩
  · intro r h; simp [generateWithFallback, h]
  · intro e h
    simp only [generateWithFallback, h]
    cases oracle fallbackModelId <;> simp
  · intro e₁ e₂ h₁ h₂; simp [generateWithFallback, h₁, h₂]
  · unfold generateWithFallback
    cases oracle primaryModelId with
    | ok r => simp
    | error e => cases oracle fallbackModelId <;> simp

/-- C2 witness: a concrete oracle for which both models fail: the
fallback error propagates and exactly the two models were invoked. -/
theorem fallback_protocol_witness :
    generateWithFallback
        (fun m => if m = primaryModelId then .error "down" else .error "down2")
      = (.error "down2", [primaryModelId, fallbackModelId]) :=
  (fallback_protocol _).2.2.1 "down" "down2" (by simp)
    (by simp [primaryModelId, fallbackModelId])

/-! ## Claim C3 -/

/-- C3 counterexample: for a fenced response whose payload does not
decode, the debug text preserved in the error is the fence-stripped
content, not the raw response text, so the claim's "preserving the raw
response text" fails as stated. -/
theorem structured_parse_raw_cex :
    alignParse (fun _ => none) "```json\nXYZ" = .error (.parseFailure "XYZ")
    ∧ "XYZ" ≠ "```json\nXYZ" := by
  constructor
  · rfl
  · decide

/-- C3 (amended): if structural (JSON) parsing of the oracle response
fails, the parser produces zero events and fails the whole batch with a
parse error, after preserving the fence-stripped response text for
offline inspection; no partial event sequence is emitted. -/
theorem structured_parse_failure (decode : String → Option (List JsonItem))
    (resp content : String) (hstrip : stripFences resp = some content)
    (hdec : decode content = none) :
    alignParse decode resp = .error (.parseFailure content) := by
  simp [alignParse, hstrip, hdec]

/-- C3 witness: a concrete undecodable response fails fatally with its
content preserved. -/
theorem structured_parse_failure_witness :
    alignParse (fun _ => none) "NOT JSON" = .error (.parseFailure "NOT JSON") :=
  structured_parse_failure (fun _ => none) "NOT JSON" "NOT JSON" (by decide) rfl

/-! ## Claim C8 -/

/-- C8: the emitted event sequence is a subsequence of the response's
record sequence in the response's own order, for both shapes: the
structured loop maps the decoded records one-for-one in order, and the
delimited parse is a sublist of the delimited record sequence. -/
theorem order_preservation :
    (∀ items, buildEvents items = items.map itemToEvent)
    ∧ (∀ resp, (delimitedParse resp).Sublist (delimitedRecords resp)) := by
  refine ⟨buildEvents_eq_map, fun resp => ?_⟩
  exact filterMap_filter_sublist parseDelimLine validEvent (pySplitNL resp)

/-! ## Claim C9 -/

/-- C9 counterexample: a response consisting of the fence marker alone
makes the stripping operation itself fail (the Python
`split("\n", 1)[1]` raises `IndexError`), so "the stripping operation
never fails on any input string" is false. -/
theorem stripFences_crash_cex : stripFences "```" = none := by decide

/-- C9 (amended): a response with no leading and no trailing fence
marker is left unchanged (so fence markers strictly inside the payload
are never removed); a response starting with a fence marker but
containing no newline makes the stripping operation fail; when markers
are present the whole first and last fence lines are stripped, as on the
concrete fenced payload. -/
theorem stripFences_amended :
    (∀ s, pyStartsWith s fenceMarker = false → pyEndsWith s fenceMarker = false →
      stripFences s = some s)
    ∧ (∀ s, pyStartsWith s fenceMarker = true → (pySplitNL s).length ≤ 1 →
      stripFences s = none)
    ∧ stripFences "```json\nPAYLOAD\n```" = some "PAYLOAD"
    ∧ stripFences "PAY```LOAD" = some "PAY```LOAD" := by
  refine ⟨?_, ?_, by decide, by decide⟩
  · intro s h1 h2
    simp [stripFences, h1, h2]
  · intro s h1 h2
    simp only [stripFences, h1, if_true, pyAfterFirstNL]
    match hp : pySplitNL s with
    | [] => simp
    | [x] => simp
    | a :: b :: t => rw [hp] at h2; simp at h2

/-- C9 witness: the unchanged case at a concrete unfenced response. -/
theorem stripFences_amended_witness :
    stripFences "RAW RESPONSE" = some "RAW RESPONSE" :=
  stripFences_amended.1 "RAW RESPONSE" (by decide) (by decide)

/-! ## Claim C10 -/

/-- C10: in a successfully decoded structured response, a missing start
or end field silently defaults to 0, a missing text field defaults to
the empty string, a missing or null actor field becomes the empty
string, and no record is ever rejected or skipped for a missing field
(every record yields exactly one event). -/
theorem structured_missing_fields (item : JsonItem) (items : List JsonItem) :
    (item.startField = none → (itemToEvent item).startMs = 0)
    ∧ (item.stopField = none → (itemToEvent item).stopMs = 0)
    ∧ (item.textField = none → (itemToEvent item).text = "")
    ∧ (item.actorField = none ∨ item.actorField = some none →
        (itemToEvent item).name = "")
    ∧ (buildEvents items).length = items.length := by
  have hz : pyInt ((0 : Rat) * 1000) = 0 := by
    norm_num [pyInt]
  refine ⟨?_, ?_, ?_, ?_, ?_⟩
  · intro h; simpa [itemToEvent, h] using hz
  · intro h; simpa [itemToEvent, h] using hz
  · intro h; simp [itemToEvent, h]
  · rintro (h | h) <;> simp [itemToEvent, h]
  · rw [buildEvents_eq_map, List.length_map]

/-- C10 witness: a record with every field missing yields exactly one
event, with zero times, empty text and empty actor. -/
theorem structured_missing_fields_witness :
    (itemToEvent ⟨none, none, none, none⟩).startMs = 0
    ∧ (itemToEvent ⟨none, none, none, none⟩).stopMs = 0
    ∧ (itemToEvent ⟨none, none, none, none⟩).text = ""
    ∧ (itemToEvent ⟨none, none, none, none⟩).name = ""
    ∧ (buildEvents [⟨none, none, none, none⟩]).length = 1 :=
  have h := structured_missing_fields ⟨none, none, none, none⟩ [⟨none, none, none, none⟩]
  ⟨h.1 rfl, h.2.1 rfl, h.2.2.1 rfl, h.2.2.2.1 (Or.inl rfl), h.2.2.2.2⟩

/-! ## Claim C1 -/

/-- C1 counterexample: the structured shape performs no validation: a
decoded record with empty text and with end below start is still emitted
as an event, so "every event in the output sequence has non-empty text
and start < end, regardless of which response shape produced it" is
false on the code. -/
theorem validation_filtering_cex :
    ¬ (∀ e ∈ buildEvents [⟨some 5, some 3, some "", none⟩],
        e.text ≠ "" ∧ e.startMs < e.stopMs) := by
  intro h
  have hb : buildEvents [⟨some 5, some 3, some "", none⟩]
      = [⟨5000, 3000, "", ""⟩] := by
    rw [buildEvents_eq_map]
    simp only [List.map_cons, List.map_nil]
    congr 1
    simp only [itemToEvent, Option.getD_some]
    norm_num [pyInt]
  have := h ⟨5000, 3000, "", ""⟩ (by rw [hb]; exact List.mem_singleton_self _)
  exact this.1 rfl

/-- C1 (amended): the validation exists only in the delimited shape,
where every emitted event has non-empty text and start < end; the
structured shape emits every decoded record unchanged, dropping none,
so empty-text and non-positive-duration events pass through. -/
theorem validation_filtering_amended :
    (∀ resp, (delimitedParse resp).all validEvent = true)
    ∧ (∀ items, (buildEvents items).length = items.length) := by
  constructor
  · intro resp
    rw [List.all_eq_true]
    intro e he
    obtain ⟨l, -, hfa⟩ := List.mem_filterMap.mp he
    cases hp : parseDelimLine l with
    | none => rw [hp] at hfa; simp [Option.filter] at hfa
    | some r =>
      rw [hp] at hfa
      simp only [Option.filter] at hfa
      by_cases hv : validEvent r
      · simp only [hv, if_true, Option.some_inj] at hfa; rwa [← hfa]
      · simp [hv] at hfa
  · intro items; rw [buildEvents_eq_map, List.length_map]

/-! ## Claim C5 -/

/-- C5: under the DELIMITED shape, the oracle response
`"1.0;2.4;NARUTO;お前は誰だ\n2.5;3.9;SASUKE;知らない"` parses into
exactly the two aligned events
`{start:1.0, end:2.4, speaker:"NARUTO", text:"お前は誰だ"}` and
`{start:2.5, end:3.9, speaker:"SASUKE", text:"知らない"}`. -/
theorem concrete_scenario :
    delimitedParse "1.0;2.4;NARUTO;お前は誰だ\n2.5;3.9;SASUKE;知らない"
      = [⟨1, 12/5, "NARUTO", "お前は誰だ"⟩, ⟨5/2, 39/10, "SASUKE", "知らない"⟩] := by
  have h10 : parseDecimal "1.0" = some 1 := by
    simp only [parseDecimal, show pySplit '.' "1.0" = ["1", "0"] from by decide]
    norm_num [show parseDigits "1".data = some 1 from by decide,
      show parseDigits "0".data = some 0 from by decide]
  have h24 : parseDecimal "2.4" = some (12/5) := by
    simp only [parseDecimal, show pySplit '.' "2.4" = ["2", "4"] from by decide]
    norm_num [show parseDigits "2".data = some 2 from by decide,
      show parseDigits "4".data = some 4 from by decide,
      show "4".length = 1 from by decide]
  have h25 : parseDecimal "2.5" = some (5/2) := by
    simp only [parseDecimal, show pySplit '.' "2.5" = ["2", "5"] from by decide]
    norm_num [show parseDigits "2".data = some 2 from by decide,
      show parseDigits "5".data = some 5 from by decide,
      show "5".length = 1 from by decide]
  have h39 : parseDecimal "3.9" = some (39/10) := by
    simp only [parseDecimal, show pySplit '.' "3.9" = ["3", "9"] from by decide]
    norm_num [show parseDigits "3".data = some 3 from by decide,
      show parseDigits "9".data = some 9 from by decide,
      show "9".length = 1 from by decide]
  have hl1 : parseDelimLine "1.0;2.4;NARUTO;お前は誰だ"
      = some ⟨1, 12/5, "NARUTO", "お前は誰だ"⟩ := by
    rw [parseDelimLine, if_neg (by decide : ¬ pyStrip "1.0;2.4;NARUTO;お前は誰だ" = ""),
      show pySplit ';' "1.0;2.4;NARUTO;お前は誰だ"
        = ["1.0", "2.4", "NARUTO", "お前は誰だ"] from by decide]
    simp [h10, h24, joinSemi]
  have hl2 : parseDelimLine "2.5;3.9;SASUKE;知らない"
      = some ⟨5/2, 39/10, "SASUKE", "知らない"⟩ := by
    rw [parseDelimLine, if_neg (by decide : ¬ pyStrip "2.5;3.9;SASUKE;知らない" = ""),
      show pySplit ';' "2.5;3.9;SASUKE;知らない"
        = ["2.5", "3.9", "SASUKE", "知らない"] from by decide]
    simp [h25, h39, joinSemi]
  have hv1 : validEvent ⟨1, 12/5, "NARUTO", "お前は誰だ"⟩ = true := by
    simp [validEvent, decide_eq_true (show (1 : Rat) < 12/5 by norm_num)]
  have hv2 : validEvent ⟨5/2, 39/10, "SASUKE", "知らない"⟩ = true := by
    simp [validEvent, decide_eq_true (show (5/2 : Rat) < 39/10 by norm_num)]
  rw [delimitedParse,
    show pySplitNL "1.0;2.4;NARUTO;お前は誰だ\n2.5;3.9;SASUKE;知らない"
      = ["1.0;2.4;NARUTO;お前は誰だ", "2.5;3.9;SASUKE;知らない"] from by decide]
  simp [List.filterMap_cons, hl1, hl2, Option.filter, hv1, hv2]

/-! ## Claim C7 -/

/-- Every transcript entry comes from one source segment via
`processSegment`, in order. -/
theorem generate_mem (dur : Option Rat) (segs : List WhisperSegment)
    (s : SegmentData) (hs : s ∈ generate_whisper_script dur segs) :
    ∃ seg, seg ∈ segs ∧ s = processSegment dur seg := by
  induction segs with
  | nil => cases dur <;> simp [generate_whisper_script] at hs
  | cons a t ih =>
    cases hd : dur with
    | none =>
      subst hd
      simp only [generate_whisper_script] at hs
      rcases List.mem_cons.mp hs with h | h
      · exact ⟨a, List.mem_cons_self a t, h⟩
      · obtain ⟨seg, hmem, heq⟩ := ih h
        exact ⟨seg, List.mem_cons_of_mem a hmem, heq⟩
    | some d =>
      subst hd
      simp only [generate_whisper_script] at hs
      by_cases hb : d ≤ a.start
      · rw [if_pos hb] at hs; cases hs
      · rw [if_neg hb] at hs
        rcases List.mem_cons.mp hs with h | h
        · exact ⟨a, List.mem_cons_self a t, h⟩
        · obtain ⟨seg, hmem, heq⟩ := ih h
          exact ⟨seg, List.mem_cons_of_mem a hmem, heq⟩

/-- C7 counterexample: a one-segment transcript whose segment has no
word timings embeds its start `1.234` verbatim in the prompt block,
and `1.234` is not its own value rounded to two decimal places, so
"every time value appearing in the normalized transcript representation
equals its source value rounded to two decimal places" is false. -/
theorem rounding_cex :
    whisperBlockEntries (generate_whisper_script none [⟨0, 1234/1000, 2, "x", []⟩])
      = [(0, 1234/1000, 2, "x")]
    ∧ (1234/1000 : Rat) ≠ pyRound2 (1234/1000) := by
  constructor
  · have h2 : pyRound2 2 = 2 := by
      norm_num [pyRound2, pyRoundHalfEven, Int.floor_ofNat]
    simp [whisperBlockEntries, generate_whisper_script, processSegment, adjustStart, h2]
  · have hf : ⌊(1234/1000 : Rat) * 100⌋ = 123 := by
      rw [Int.floor_eq_iff]
      norm_num
    norm_num [pyRound2, pyRoundHalfEven, hf]

/-- C7 (amended): every time value in the normalized transcript block
comes from one source segment; its end is the source end rounded to two
decimal places (capped at the duration limit when one is set), while
its start is the raw, unrounded source start whenever the segment has
at most one word timing (and the rounded word-timing-adjusted start
otherwise); the prompt block embeds these values with no further
rounding. -/
theorem rounding_amended (dur : Option Rat) (segs : List WhisperSegment)
    (t : Int × Rat × Rat × String)
    (ht : t ∈ whisperBlockEntries (generate_whisper_script dur segs)) :
    ∃ seg, seg ∈ segs
      ∧ t.1 = seg.id ∧ t.2.2.2 = seg.text
      ∧ t.2.1 = adjustStart seg
      ∧ (seg.words.length ≤ 1 → t.2.1 = seg.start)
      ∧ t.2.2.1 = dur.elim (pyRound2 seg.stop) fun d => min (pyRound2 seg.stop) d := by
  obtain ⟨s, hs, hts⟩ := List.mem_map.mp ht
  obtain ⟨seg, hmem, heq⟩ := generate_mem dur segs s hs
  subst heq
  subst hts
  refine ⟨seg, hmem, rfl, rfl, rfl, ?_, ?_⟩
  · intro hw
    show adjustStart seg = seg.start
    unfold adjustStart
    match hws : seg.words with
    | [] => rfl
    | w :: rest =>
      rw [hws] at hw
      simp only [List.length_cons] at hw
      have : rest = [] := List.length_eq_zero.mp (by omega)
      simp [this]
  · show (processSegment dur seg).stop = _
    cases dur with
    | none => rfl
    | some d =>
      show (if d < pyRound2 seg.stop then d else pyRound2 seg.stop) = _
      simp only [Option.elim]
      rcases lt_or_le d (pyRound2 seg.stop) with h | h
      · rw [if_pos h]
        exact (min_eq_right h.le).symm
      · rw [if_neg (not_lt.mpr h)]
        exact (min_eq_left h).symm

/-- C7 witness: the amended statement at a concrete no-word segment. -/
theorem rounding_amended_witness :
    ∃ seg, seg ∈ [(⟨0, 1, 2, "x", []⟩ : WhisperSegment)]
      ∧ ((0 : Int), (1 : Rat), (2 : Rat), "x").1 = seg.id
      ∧ ((0 : Int), (1 : Rat), (2 : Rat), "x").2.2.2 = seg.text
      ∧ ((0 : Int), (1 : Rat), (2 : Rat), "x").2.1 = adjustStart seg
      ∧ (seg.words.length ≤ 1 → ((0 : Int), (1 : Rat), (2 : Rat), "x").2.1 = seg.start)
      ∧ ((0 : Int), (1 : Rat), (2 : Rat), "x").2.2.1
          = (none : Option Rat).elim (pyRound2 seg.stop) fun d => min (pyRound2 seg.stop) d :=
  rounding_amended none [⟨0, 1, 2, "x", []⟩] ((0 : Int), (1 : Rat), (2 : Rat), "x") (by
    have h2 : pyRound2 2 = 2 := by
      norm_num [pyRound2, pyRoundHalfEven, Int.floor_ofNat]
    have h1 : pyRound2 1 = 1 := by
      norm_num [pyRound2, pyRoundHalfEven, Int.floor_ofNat]
    simp [whisperBlockEntries, generate_whisper_script, processSegment, adjustStart, h2])

/-! ## Claims C4 and C6 -/

/-- The dedup loop only ever emits lines of its input. -/
theorem pageDedup_subset (last : Option String) (ls : List String) :
    ∀ x ∈ (pageDedup last ls).1, x ∈ ls := by
  induction ls generalizing last with
  | nil => simp [pageDedup]
  | cons l t ih =>
    intro x hx
    by_cases he : some l = last
    · rw [pageDedup, if_pos he] at hx
      exact List.mem_cons_of_mem l (ih last x hx)
    · rw [pageDedup, if_neg he] at hx
      rcases List.mem_cons.mp hx with rfl | hx2
      · exact List.mem_cons_self x t
      · exact List.mem_cons_of_mem l (ih (some l) x hx2)

/-- The lines emitted by the dedup loop, prefixed with the incoming
carry-over, are pairwise adjacent-distinct. -/
theorem pageDedup_chain (last : Option String) (ls : List String) :
    List.Chain' Ne (last.toList ++ (pageDedup last ls).1) := by
  induction ls generalizing last with
  | nil => cases last <;> simp [pageDedup]
  | cons l t ih =>
    by_cases he : some l = last
    · rw [pageDedup, if_pos he]
      exact ih last
    · rw [pageDedup, if_neg he]
      cases last with
      | none => simpa using ih (some l)
      | some x =>
        show List.Chain' Ne (x :: l :: (pageDedup (some l) t).1)
        refine List.chain'_cons.mpr ⟨?_, ?_⟩
        · exact fun hxl => he (by rw [hxl])
        · simpa using ih (some l)

/-- After the dedup loop, the carry-over equals the last emitted line,
or is unchanged when nothing was emitted. -/
theorem pageDedup_state (last : Option String) (ls : List String) :
    ((pageDedup last ls).1 = [] ∧ (pageDedup last ls).2 = last)
    ∨ (∃ x, (pageDedup last ls).1.getLast? = some x
        ∧ (pageDedup last ls).2 = some x) := by
  induction ls generalizing last with
  | nil => exact Or.inl ⟨rfl, rfl⟩
  | cons l t ih =>
    by_cases he : some l = last
    · rw [pageDedup, if_pos he]
      exact ih last
    · rw [pageDedup, if_neg he]
      rcases ih (some l) with ⟨h1, h2⟩ | ⟨x, hg, h2⟩
    -- the tail emitted nothing: the head line is the last emitted one
      · refine Or.inr ⟨l, ?_, h2⟩
        show (l :: (pageDedup (some l) t).1).getLast? = some l
        rw [h1]
        rfl
      · refine Or.inr ⟨x, ?_, h2⟩
        show (l :: (pageDedup (some l) t).1).getLast? = some x
        have hne : (pageDedup (some l) t).1 ≠ [] := by
          intro hnil; rw [hnil] at hg; cases hg
        match hm : (pageDedup (some l) t).1, hne with
        | y :: ys, _ =>
          rw [List.getLast?_cons_cons]
          rw [hm] at hg
          exact hg

/-- Every line of `pageLines` is trim-fixed and non-empty. -/
theorem pageLines_mem (raw : String) :
    ∀ l ∈ pageLines raw, pyStrip l = l ∧ l ≠ "" := by
  intro l hl
  obtain ⟨hm, hne⟩ := List.mem_filter.mp hl
  obtain ⟨r, -, hr⟩ := List.mem_map.mp hm
  constructor
  · rw [← hr]
    exact pyStrip_idem r
  · simpa using hne

/-- Every block kept by the page loop joins to a non-empty string and
consists of trim-fixed, non-empty lines. -/
theorem collectPages_mem (last : Option String) (pages : List String) :
    ∀ b ∈ collectPages last pages,
      joinNL b ≠ "" ∧ ∀ x ∈ b, pyStrip x = x ∧ x ≠ "" := by
  induction pages generalizing last with
  | nil => simp [collectPages]
  | cons p ps ih =>
    intro b hb
    rw [collectPages] at hb
    by_cases hj : joinNL (pageDedup last (pageLines p)).1 = ""
    · rw [if_pos hj] at hb
      exact ih _ b hb
    · rw [if_neg hj] at hb
      rcases List.mem_cons.mp hb with rfl | hb2
      · exact ⟨hj, fun x hx => pageLines_mem p x (pageDedup_subset last _ x hx)⟩
      · exact ih _ b hb2

/-- The concatenated surviving lines, prefixed with the incoming
carry-over, are pairwise adjacent-distinct: the carry-over is threaded
across pages and never reset, so the invariant holds across page
boundaries. -/
theorem collectPages_chain (pages : List String) (last : Option String) :
    List.Chain' Ne (last.toList ++ (collectPages last pages).flatten) := by
  induction pages generalizing last with
  | nil => cases last <;> simp [collectPages]
  | cons p ps ih =>
    rw [collectPages]
    by_cases hj : joinNL (pageDedup last (pageLines p)).1 = ""
    · have h1 : (pageDedup last (pageLines p)).1 = [] := by
        by_contra hne
        exact joinNL_ne_empty _ hne
          (fun x hx => (pageLines_mem p x (pageDedup_subset last _ x hx)).2) hj
      have h2 : (pageDedup last (pageLines p)).2 = last := by
        rcases pageDedup_state last (pageLines p) with ⟨-, h⟩ | ⟨x, hg, -⟩
        · exact h
        · rw [h1] at hg; cases hg
      rw [if_pos hj, h2]
      exact ih last
    · have hne : (pageDedup last (pageLines p)).1 ≠ [] := by
        intro he; exact hj (by rw [he]; rfl)
      rcases pageDedup_state last (pageLines p) with ⟨h1, -⟩ | ⟨x, hg, h2⟩
      · exact absurd h1 hne
      · rw [if_neg hj, List.flatten_cons, ← List.append_assoc, h2]
        have hih : List.Chain' Ne (x :: (collectPages (some x) ps).flatten) := by
          simpa using ih (some x)
        apply List.Chain'.append (pageDedup_chain last (pageLines p))
          ((List.chain'_cons'.mp hih).2)
        intro a ha b hb
        rw [List.getLast?_append_of_ne_nil last.toList hne, hg] at ha
        cases ha
        exact (List.chain'_cons'.mp hih).1 b hb

/-- Adjacent distinctness of trim-fixed lines transfers to adjacent
distinctness after trimming. -/
theorem chain_strip_of_fixed (l : List String)
    (hfix : ∀ x ∈ l, pyStrip x = x) (h : List.Chain' Ne l) :
    List.Chain' (fun a b => pyStrip a ≠ pyStrip b) l := by
  induction l with
  | nil => simp
  | cons a t ih =>
    cases t with
    | nil => simp
    | cons b t2 =>
      rw [List.chain'_cons] at h ⊢
      refine ⟨?_, ih (fun x hx => hfix x (List.mem_cons_of_mem a hx)) h.2⟩
      rw [hfix a (List.mem_cons_self _ _),
        hfix b (List.mem_cons_of_mem a (List.mem_cons_self _ _))]
      exact h.1

/-- C4: the reference text produced by the page collector contains no
two adjacent lines that are identical after trimming, within a page or
across page boundaries: the carry-over is maintained across the whole
document and never reset per page, so a line repeated at a page boundary
appears exactly once. -/
theorem dedup_invariant (pages : List String) :
    List.Chain' (fun a b => pyStrip a ≠ pyStrip b) (referenceLines pages) := by
  have hchain : List.Chain' Ne (referenceLines pages) := by
    simpa [referenceLines] using collectPages_chain pages none
  have hfix : ∀ l ∈ referenceLines pages, pyStrip l = l := by
    intro l hl
    obtain ⟨b, hb, hlb⟩ := List.mem_flatten.mp hl
    exact ((collectPages_mem none pages b hb).2 l hlb).1
  exact chain_strip_of_fixed _ hfix hchain

/-- C6 counterexample: two pages of one distinct line each produce
`"A\nB"`: the pages are separated by a single newline, not by a blank
line (`"A\n\nB"`), so the claimed blank-line page separator is false. -/
theorem page_separator_cex :
    extract_jscript ["A", "B"] = "A\nB" ∧ ("A\nB" : String) ≠ "A\n\nB" :=
  ⟨by decide, by decide⟩

/-- C6 (amended): the collector's output is exactly the surviving lines
of all pages joined by single newlines: lines within a page and
consecutive contributing pages alike are separated by one newline (no
blank line), and a page with zero surviving lines contributes nothing. -/
theorem page_separator_amended (pages : List String) :
    extract_jscript pages = joinNL (referenceLines pages) := by
  unfold extract_jscript referenceLines
  exact joinNL_flatten _ (fun b hb => fun he =>
    (collectPages_mem none pages b hb).1 (by rw [he]; rfl))

end Autotimer
